import Mathlib

/-!
Verification of the btc-monitor indicator and signal pipeline.

This file gives a shallow embedding, over exact rational arithmetic, of the
algorithmic core of the repository:

* `cluster_levels` / `calculate_support_resistance` (btc_monitor/indicators.py,
  identical copy in monitor_btc.py),
* `calculate_rsi` (monitor_btc.py, the repository's own implementation),
* `analyze_opportunity` (btc_monitor/indicators.py),
* `find_drops_advanced` (backtest.py, identical copy in btc_monitor/indicators.py),
* `save_signal` / `load_all` (btc_monitor/storage.py),

and proves the specified properties about them.  Python floats are modelled by
`ℚ`; a Python value that can be `None` (or the float `NaN`) is modelled by
`Option ℚ`.  Python truthiness tests such as `if target_resistance:` are
modelled literally: `None` and `0.0` are falsy.  The wall-clock read
`pd.Timestamp.now()` is modelled by an explicit clock input `ts`.
-/

namespace BtcMonitor

/-- `Std.Antisymm` instance for `≤` on `ℚ`, needed by `List.min?_eq_some_iff`. -/
instance : Std.Antisymm (α := ℚ) (· ≤ ·) := ⟨le_antisymm⟩

/-- Ascending sort of a numeric list, embedding Python `sorted(xs)`. -/
def sortAsc (l : List ℚ) : List ℚ := List.insertionSort (· ≤ ·) l

/-- Descending sort of a numeric list, embedding Python `sorted(xs, reverse=True)`.
On values (as opposed to rows) a stable descending sort and the reverse of a
stable ascending sort are equal as lists. -/
def sortDesc (l : List ℚ) : List ℚ := (sortAsc l).reverse

/-- Arithmetic mean of a list, embedding `np.mean`. -/
def listMean (l : List ℚ) : ℚ := l.sum / l.length

/-- The greedy clustering loop inside `cluster_levels` (indicators.py lines 47-54):
iterate over the remaining sorted values `xs` carrying the current cluster `cur`
(most recently appended value first).  A value `x` joins the current cluster when
`abs(x - current_cluster[-1]) / current_cluster[-1] <= tolerance`; otherwise the
mean of the current cluster is emitted and a new cluster is started at `x`. -/
def clusterGo (tol : ℚ) : List ℚ → List ℚ → List ℚ
  | [], cur => [listMean cur]
  | x :: xs, cur =>
    match cur with
    | [] => clusterGo tol xs [x]
    | last :: _ =>
      if |x - last| / last ≤ tol then clusterGo tol xs (x :: cur)
      else listMean cur :: clusterGo tol xs [x]

/-- `cluster_levels(levels, tolerance)` from indicators.py lines 38-55: sort the
values ascending, then greedily cluster with chained tolerance, emitting the
mean of each cluster. -/
def cluster_levels (levels : List ℚ) (tol : ℚ) : List ℚ :=
  match sortAsc levels with
  | [] => []
  | x :: xs => clusterGo tol xs [x]

/-- `calculate_support_resistance(df, tolerance)` from indicators.py lines 24-65,
with the high and low columns of the DataFrame passed as lists.  Returns the
pair `(supports, resistances)`: the 5 highest cluster means of the lows and the
5 highest cluster means of the highs, each in descending order. -/
def calculate_support_resistance (highs lows : List ℚ) (tol : ℚ) : List ℚ × List ℚ :=
  let all_highs := cluster_levels highs tol
  let all_lows := cluster_levels lows tol
  ((sortDesc all_lows).take 5, (sortDesc all_highs).take 5)

/-- Specification-side chunking (claim C4's description of the clustering): the
chunk beginning at `x` together with the remaining chunks of the tail.  A value
`y` following `z` stays in the same chunk exactly when `|y - z| / z ≤ tol`
(the chained tolerance relative to the last-added value). -/
def chunkCore (tol : ℚ) (x : ℚ) : List ℚ → List ℚ × List (List ℚ)
  | [] => ([x], [])
  | y :: ys =>
    let r := chunkCore tol y ys
    if |y - x| / x ≤ tol then (x :: r.1, r.2) else ([x], r.1 :: r.2)

/-- Specification-side clustering: split a list into maximal runs of
consecutively-tolerant values. -/
def chunkAdj (tol : ℚ) : List ℚ → List (List ℚ)
  | [] => []
  | x :: xs => (chunkCore tol x xs).1 :: (chunkCore tol x xs).2

lemma listMean_eq_of {l₁ l₂ : List ℚ} (hs : l₁.sum = l₂.sum)
    (hl : l₁.length = l₂.length) : listMean l₁ = listMean l₂ := by
  simp [listMean, hs, hl]

lemma clusterGo_eq (tol : ℚ) :
    ∀ (xs : List ℚ) (c : ℚ) (ct : List ℚ),
      clusterGo tol xs (c :: ct)
        = listMean (ct ++ (chunkCore tol c xs).1)
            :: (chunkCore tol c xs).2.map listMean := by
  intro xs
  induction xs with
  | nil =>
    intro c ct
    simp only [clusterGo, chunkCore, List.map_nil]
    refine congrArg (fun q => [q]) (listMean_eq_of ?_ ?_)
    · simp [add_comm]
    · simp [Nat.add_comm]
  | cons x xs ih =>
    intro c ct
    by_cases h : |x - c| / c ≤ tol
    · show (if |x - c| / c ≤ tol then clusterGo tol xs (x :: c :: ct)
          else listMean (c :: ct) :: clusterGo tol xs [x]) = _
      rw [if_pos h, ih x (c :: ct)]
      have hcore : chunkCore tol c (x :: xs)
          = (c :: (chunkCore tol x xs).1, (chunkCore tol x xs).2) := by
        simp [chunkCore, h]
      rw [hcore]
      refine congrArg₂ _ (listMean_eq_of ?_ ?_) rfl
      · simp; ring
      · simp; omega
    · show (if |x - c| / c ≤ tol then clusterGo tol xs (x :: c :: ct)
          else listMean (c :: ct) :: clusterGo tol xs [x]) = _
      rw [if_neg h, ih x []]
      have hcore : chunkCore tol c (x :: xs)
          = ([c], (chunkCore tol x xs).1 :: (chunkCore tol x xs).2) := by
        simp [chunkCore, h]
      rw [hcore]
      refine congrArg₂ _ (listMean_eq_of ?_ ?_) ?_
      · simp [add_comm]
      · simp [Nat.add_comm]
      · simp

/-- The greedy clustering loop computes exactly the means of the
chained-tolerance chunks of the sorted input. -/
lemma cluster_levels_eq (levels : List ℚ) (tol : ℚ) :
    cluster_levels levels tol = (chunkAdj tol (sortAsc levels)).map listMean := by
  unfold cluster_levels
  cases h : sortAsc levels with
  | nil => simp [chunkAdj]
  | cons x xs =>
    show clusterGo tol xs [x] = _
    rw [clusterGo_eq]
    simp [chunkAdj]

/-- C4: `calculate_support_resistance` sorts each value list ascending, greedily
clusters by chained tolerance against the cluster's last-added value (emitting
the arithmetic mean of each cluster), and returns the 5 highest cluster means
of the lows as supports and the 5 highest cluster means of the highs as
resistances, each in descending order.  Supports are the HIGHEST clustered low
levels.  Proved for every list of highs and lows (including empty ones) and
every tolerance. -/
theorem calculate_support_resistance_spec (highs lows : List ℚ) (tol : ℚ) :
    calculate_support_resistance highs lows tol
      = ((sortDesc ((chunkAdj tol (sortAsc lows)).map listMean)).take 5,
         (sortDesc ((chunkAdj tol (sortAsc highs)).map listMean)).take 5) := by
  simp [calculate_support_resistance, cluster_levels_eq]

lemma rat_min?_eq_some_iff {l : List ℚ} {a : ℚ} :
    l.min? = some a ↔ a ∈ l ∧ ∀ b ∈ l, a ≤ b := by
  apply List.min?_eq_some_iff
  · exact fun a => le_refl a
  · exact fun a b => min_choice a b
  · exact fun a b c => le_min_iff

lemma rat_max?_eq_some_iff {l : List ℚ} {a : ℚ} :
    l.max? = some a ↔ a ∈ l ∧ ∀ b ∈ l, b ≤ a := by
  apply List.max?_eq_some_iff
  · exact fun a => le_refl a
  · exact fun a b => max_choice a b
  · exact fun a b c => max_le_iff

lemma min?_congr_perm {l₁ l₂ : List ℚ} (h : List.Perm l₁ l₂) : l₁.min? = l₂.min? := by
  cases h₂ : l₂.min? with
  | none =>
    rw [List.min?_eq_none_iff] at h₂
    subst h₂
    rw [List.min?_eq_none_iff]
    exact h.eq_nil
  | some a =>
    rw [rat_min?_eq_some_iff] at h₂
    rw [rat_min?_eq_some_iff]
    exact ⟨h.mem_iff.mpr h₂.1, fun b hb => h₂.2 b (h.mem_iff.mp hb)⟩

lemma max?_congr_perm {l₁ l₂ : List ℚ} (h : List.Perm l₁ l₂) : l₁.max? = l₂.max? := by
  cases h₂ : l₂.max? with
  | none =>
    rw [List.max?_eq_none_iff] at h₂
    subst h₂
    rw [List.max?_eq_none_iff]
    exact h.eq_nil
  | some a =>
    rw [rat_max?_eq_some_iff] at h₂
    rw [rat_max?_eq_some_iff]
    exact ⟨h.mem_iff.mpr h₂.1, fun b hb => h₂.2 b (h.mem_iff.mp hb)⟩

/-- In a list that is pairwise nondecreasing under the measure `f`, the first
element satisfying `p` realises the minimum of `f` over all satisfying
elements. -/
lemma find?_pairwise_le {α : Type} (f : α → ℚ) :
    ∀ (l : List α), l.Pairwise (fun a b => f a ≤ f b) →
      ∀ (p : α → Bool) (a : α), l.find? p = some a →
        ∀ b ∈ l, p b = true → f a ≤ f b := by
  intro l
  induction l with
  | nil => intro _ p a h; simp at h
  | cons x xs ih =>
    intro hp p a hfind b hb hpb
    rcases List.pairwise_cons.mp hp with ⟨hx, hxs⟩
    by_cases hpx : p x
    · rw [List.find?_cons_of_pos _ hpx] at hfind
      cases hfind
      rcases List.mem_cons.mp hb with rfl | hbxs
      · exact le_refl _
      · exact hx b hbxs
    · rw [List.find?_cons_of_neg _ (by simpa using hpx)] at hfind
      rcases List.mem_cons.mp hb with rfl | hbxs
      · exact absurd hpb hpx
      · exact ih hxs p a hfind b hbxs hpb

/-- On an ascending-sorted list, scanning for the first element satisfying `p`
(a Python `for ... if ...: break` loop) computes the minimum of the elements
satisfying `p`. -/
lemma find?_sorted_eq_min? :
    ∀ (l : List ℚ), l.Pairwise (· ≤ ·) → ∀ (p : ℚ → Bool),
      l.find? p = (l.filter p).min? := by
  intro l
  induction l with
  | nil => intro _ p; simp
  | cons x xs ih =>
    intro hp p
    rcases List.pairwise_cons.mp hp with ⟨hx, hxs⟩
    by_cases hpx : p x
    · rw [List.find?_cons_of_pos _ hpx, List.filter_cons_of_pos hpx]
      symm
      rw [rat_min?_eq_some_iff]
      refine ⟨List.mem_cons_self _ _, ?_⟩
      intro b hb
      rcases List.mem_cons.mp hb with rfl | hbf
      · exact le_refl _
      · exact hx b (List.mem_of_mem_filter hbf)
    · rw [List.find?_cons_of_neg _ (by simpa using hpx),
        List.filter_cons_of_neg (by simpa using hpx)]
      exact ih hxs p

/-- On a descending-sorted list, scanning for the first element satisfying `p`
computes the maximum of the elements satisfying `p`. -/
lemma find?_sorted_eq_max? :
    ∀ (l : List ℚ), l.Pairwise (fun a b => b ≤ a) → ∀ (p : ℚ → Bool),
      l.find? p = (l.filter p).max? := by
  intro l
  induction l with
  | nil => intro _ p; simp
  | cons x xs ih =>
    intro hp p
    rcases List.pairwise_cons.mp hp with ⟨hx, hxs⟩
    by_cases hpx : p x
    · rw [List.find?_cons_of_pos _ hpx, List.filter_cons_of_pos hpx]
      symm
      rw [rat_max?_eq_some_iff]
      refine ⟨List.mem_cons_self _ _, ?_⟩
      intro b hb
      rcases List.mem_cons.mp hb with rfl | hbf
      · exact le_refl _
      · exact hx b (List.mem_of_mem_filter hbf)
    · rw [List.find?_cons_of_neg _ (by simpa using hpx),
        List.filter_cons_of_neg (by simpa using hpx)]
      exact ih hxs p

lemma sortAsc_pairwise (l : List ℚ) : (sortAsc l).Pairwise (· ≤ ·) :=
  List.sorted_insertionSort _ l

lemma sortDesc_pairwise (l : List ℚ) : (sortDesc l).Pairwise (fun a b => b ≤ a) := by
  rw [sortDesc, List.pairwise_reverse]
  exact List.sorted_insertionSort _ l

lemma sortAsc_perm (l : List ℚ) : List.Perm (sortAsc l) l :=
  List.perm_insertionSort _ l

lemma sortDesc_perm (l : List ℚ) : List.Perm (sortDesc l) l :=
  ((sortAsc l).reverse_perm).trans (sortAsc_perm l)

/-- Specification-side reading of target step (1): the lowest resistance level
strictly greater than the current price. -/
def lowestResistanceAbove (cp : ℚ) (rs : List ℚ) : Option ℚ :=
  (rs.filter (fun r => decide (cp < r))).min?

/-- Specification-side reading of stop step (1): the highest support level
strictly less than the current price. -/
def highestSupportBelow (cp : ℚ) (ss : List ℚ) : Option ℚ :=
  (ss.filter (fun s => decide (s < cp))).max?

/-- The code's loop over `sorted(resistances)` taking the first level above the
current price equals the specification's "lowest resistance above". -/
lemma find?_sortAsc_gt (cp : ℚ) (rs : List ℚ) :
    (sortAsc rs).find? (fun r => decide (cp < r)) = lowestResistanceAbove cp rs := by
  rw [find?_sorted_eq_min? _ (sortAsc_pairwise rs)]
  exact min?_congr_perm ((sortAsc_perm rs).filter _)

/-- The code's loop over `sorted(supports, reverse=True)` taking the first level
below the current price equals the specification's "highest support below". -/
lemma find?_sortDesc_lt (cp : ℚ) (ss : List ℚ) :
    (sortDesc ss).find? (fun s => decide (s < cp)) = highestSupportBelow cp ss := by
  rw [find?_sorted_eq_max? _ (sortDesc_pairwise ss)]
  exact max?_congr_perm ((sortDesc_perm ss).filter _)

/-- Threshold and derivation parameters of `analyze_opportunity`
(indicators.py lines 109-112).  `rsi_oversold` is an `int` in Python but is
only ever compared against the RSI value, so it is modelled as `ℚ`;
`ma_period` is used only to compute the moving average (which the embedding
takes as an input value) and to format a message. -/
structure Params where
  min_drop : ℚ
  ma_distance : ℚ
  rsi_oversold : ℚ
  ma_period : ℕ
  stop_loss : ℚ
  take_profit : ℚ
  max_take_profit : ℚ
  resistance_factor : ℚ
deriving DecidableEq

/-- The signal conditions recorded in `analysis['signals']`.  The Python code
appends formatted message strings; only their identities matter here. -/
inductive SignalTag
  | drop24h
  | belowMA
  | rsiOversold
  | nearSupport
deriving DecidableEq

/-- The `analysis` dictionary returned by `analyze_opportunity`
(indicators.py lines 119-218), as it is at the `return` statement.  The
`timestamp` field holds the wall-clock reading passed in as `ts`. -/
structure Analysis where
  timestamp : ℕ
  price : ℚ
  signals : List SignalTag
  entry_signal : Bool
  target_price : Option ℚ
  profit_percent : Option ℚ
  stop_loss : Option ℚ
  stop_percent : Option ℚ
  score : ℕ
  ma : ℚ
  ma_distance : ℚ
  rsi : ℚ
  supports : List ℚ
  resistances : List ℚ
deriving DecidableEq

/-- The percentage fallback target (indicators.py lines 191-195):
`(current_price * (1 + min(take_profit, max_take_profit)/100), min(...))`. -/
def targetFallback (cp tp mtp : ℚ) : ℚ × ℚ :=
  (cp * (1 + min tp mtp / 100), min tp mtp)

/-- Embedding of the target-price block, indicators.py lines 166-195.  Returns
the final `(target_price, profit_percent)` pair.  The loop over
`sorted(resistances)` breaking at the first level above the current price is
`List.find?` on the ascending sort; `if target_resistance:` and
`if not analysis['target_price']:` are Python truthiness tests, under which
both `None` and `0.0` are falsy. -/
def targetStep (cp : ℚ) (rs : List ℚ) (p : Params) : ℚ × ℚ :=
  let target_resistance := (sortAsc rs).find? (fun r => decide (cp < r))
  let maybeTarget : Option (ℚ × ℚ) :=
    match target_resistance with
    | some r =>
      if r = 0 then none
      else
        let partTarget := cp + (r - cp) * p.resistance_factor
        let max_target := cp * (1 + p.max_take_profit / 100)
        let final_target := min partTarget max_target
        let final_profit := (final_target - cp) / cp * 100
        if p.take_profit ≤ final_profit then some (final_target, final_profit) else none
    | none => none
  match maybeTarget with
  | some pr => if pr.1 = 0 then targetFallback cp p.take_profit p.max_take_profit else pr
  | none => targetFallback cp p.take_profit p.max_take_profit

/-- Embedding of the stop-loss block, indicators.py lines 197-212.  Returns the
final `(stop_loss, stop_percent)` pair.  The loop over
`sorted(supports, reverse=True)` breaking at the first level below the current
price is `List.find?` on the descending sort; `if stop_support:` and
`if not analysis['stop_loss']:` are Python truthiness tests. -/
def stopStep (cp : ℚ) (ss : List ℚ) (p : Params) : ℚ × ℚ :=
  let stop_support := (sortDesc ss).find? (fun s => decide (s < cp))
  let maybeStop : Option (ℚ × ℚ) :=
    match stop_support with
    | some s =>
      if s = 0 then none
      else
        let stop_percent := (cp - s) / cp * 100
        if stop_percent ≤ p.stop_loss * 2 then some (s, stop_percent) else none
    | none => none
  match maybeStop with
  | some sp => if sp.1 = 0 then (cp * (1 - p.stop_loss / 100), p.stop_loss) else sp
  | none => (cp * (1 - p.stop_loss / 100), p.stop_loss)

/-- Embedding of `analyze_opportunity` (btc_monitor/indicators.py lines
109-218).  The indicator computations the Python function performs on
`df_historical` — `calculate_moving_average`, `calculate_rsi` and
`calculate_support_resistance`, embedded separately in this file — are factored
out: their resulting values `ma`, `rsi`, `supports`, `resistances` are inputs
here, exactly as the scoring logic consumes them.  `ts` is the wall-clock
reading `pd.Timestamp.now()`; `price_change_percent` is
`stats_24h['price_change_percent']`. -/
def analyze_opportunity (ts : ℕ) (current_price price_change_percent ma rsi : ℚ)
    (supports resistances : List ℚ) (p : Params) : Analysis :=
  let drop_24h := price_change_percent
  let score1 : ℕ := if drop_24h ≤ -p.min_drop then 3 else 0
  let sigs1 : List SignalTag := if drop_24h ≤ -p.min_drop then [SignalTag.drop24h] else []
  let ma_dist := (current_price - ma) / ma * 100
  let score2 := score1 + (if ma_dist ≤ -p.ma_distance then 2 else 0)
  let sigs2 := sigs1 ++ (if ma_dist ≤ -p.ma_distance then [SignalTag.belowMA] else [])
  let score3 := score2 + (if rsi < p.rsi_oversold then 2 else 0)
  let sigs3 := sigs2 ++ (if rsi < p.rsi_oversold then [SignalTag.rsiOversold] else [])
  let nearSupport := supports.find? (fun s =>
    decide (-2 ≤ (current_price - s) / s * 100 ∧ (current_price - s) / s * 100 ≤ 2))
  let score4 := score3 + (if nearSupport.isSome then 1 else 0)
  let sigs4 := sigs3 ++ (if nearSupport.isSome then [SignalTag.nearSupport] else [])
  let targetPair := targetStep current_price resistances p
  let stopPair := stopStep current_price supports p
  { timestamp := ts
    price := current_price
    signals := sigs4
    entry_signal := decide (3 ≤ score4)
    target_price := some targetPair.1
    profit_percent := some targetPair.2
    stop_loss := some stopPair.1
    stop_percent := some stopPair.2
    score := score4
    ma := ma
    ma_distance := ma_dist
    rsi := rsi
    supports := supports
    resistances := resistances }

lemma near_iff (cp : ℚ) (ss : List ℚ) :
    (ss.find? (fun s =>
        decide (-2 ≤ (cp - s) / s * 100 ∧ (cp - s) / s * 100 ≤ 2))).isSome = true
      ↔ ∃ s ∈ ss, -2 ≤ (cp - s) / s * 100 ∧ (cp - s) / s * 100 ≤ 2 := by
  rw [List.find?_isSome]
  simp

/-- C1: for every call, the returned score is the sum of the weights of exactly
the conditions that hold — plus 3 when `price_change_percent ≤ -min_drop`, plus
2 when `(current_price - MA)/MA * 100 ≤ -ma_distance`, plus 2 when
`RSI < rsi_oversold`, plus 1 when the current price is within ±2% of some
support level (the code's formula `(current_price - s)/s * 100 ∈ [-2, 2]`) —
and `entry_signal` is true iff `score ≥ 3`.  Quantifying over all inputs covers
all 2^4 combinations of the four conditions, independently of the threshold
parameters, which only gate the individual checks. -/
theorem analyze_opportunity_score_spec (ts : ℕ) (cp pcp ma rsi : ℚ)
    (supports resistances : List ℚ) (p : Params) :
    ((analyze_opportunity ts cp pcp ma rsi supports resistances p).score
        = (if pcp ≤ -p.min_drop then 3 else 0)
          + (if (cp - ma) / ma * 100 ≤ -p.ma_distance then 2 else 0)
          + (if rsi < p.rsi_oversold then 2 else 0)
          + (if ∃ s ∈ supports, -2 ≤ (cp - s) / s * 100 ∧ (cp - s) / s * 100 ≤ 2
              then 1 else 0))
    ∧ ((analyze_opportunity ts cp pcp ma rsi supports resistances p).entry_signal = true
        ↔ 3 ≤ (analyze_opportunity ts cp pcp ma rsi supports resistances p).score) := by
  constructor
  · simp only [analyze_opportunity]
    rw [if_congr (near_iff cp supports) rfl rfl]
  · simp [analyze_opportunity]

/-- Projection of an `Analysis` onto every field except `timestamp`. -/
def Analysis.sansTime (a : Analysis) :
    ℚ × List SignalTag × Bool × Option ℚ × Option ℚ × Option ℚ × Option ℚ
      × ℕ × ℚ × ℚ × ℚ × List ℚ × List ℚ :=
  (a.price, a.signals, a.entry_signal, a.target_price, a.profit_percent,
   a.stop_loss, a.stop_percent, a.score, a.ma, a.ma_distance, a.rsi,
   a.supports, a.resistances)

/-- C7 (amended): `analyze_opportunity` is deterministic in every field except
`timestamp`: for identical arguments, any two calls agree on all fields other
than `timestamp`, which is read from the wall clock (`pd.Timestamp.now()`) and
is the only non-input influence on the result. -/
theorem analyze_opportunity_deterministic (ts1 ts2 : ℕ) (cp pcp ma rsi : ℚ)
    (ss rs : List ℚ) (p : Params) :
    (analyze_opportunity ts1 cp pcp ma rsi ss rs p).sansTime
      = (analyze_opportunity ts2 cp pcp ma rsi ss rs p).sansTime := rfl

/-- C7 counterexample: two calls with identical arguments but different
wall-clock readings return Analysis objects that are NOT equal in every field —
the `timestamp` field differs — refuting the claim that the two returned
dictionaries are equal in every field with no hidden state. -/
theorem analyze_opportunity_clock_counterexample :
    analyze_opportunity 0 100 0 100 50 [] [] (Params.mk 5 3 30 20 5 3 5 (6 / 10))
      ≠ analyze_opportunity 1 100 0 100 50 [] [] (Params.mk 5 3 30 20 5 3 5 (6 / 10)) := by
  intro h
  exact absurd (congrArg Analysis.timestamp h) (by decide)

/-- C10: the returned Analysis always has `target_price`, `profit_percent`,
`stop_loss` and `stop_percent` set to numeric (non-`None`) values: the
percentage fallback branches (indicators.py lines 190-195 and 210-212)
guarantee the fields initialised to `None` never survive to the return value.
Proved for all inputs, hence in particular under the claim's hypotheses
(positive price, non-negative parameters), and in particular for empty
support or resistance lists. -/
theorem analyze_opportunity_fields_set (ts : ℕ) (cp pcp ma rsi : ℚ)
    (ss rs : List ℚ) (p : Params) :
    (analyze_opportunity ts cp pcp ma rsi ss rs p).target_price.isSome = true
    ∧ (analyze_opportunity ts cp pcp ma rsi ss rs p).profit_percent.isSome = true
    ∧ (analyze_opportunity ts cp pcp ma rsi ss rs p).stop_loss.isSome = true
    ∧ (analyze_opportunity ts cp pcp ma rsi ss rs p).stop_percent.isSome = true :=
  ⟨rfl, rfl, rfl, rfl⟩

/-- Claim C2's target derivation, exactly as the claim states it: take the
lowest resistance strictly above the current price; if one exists, keep
`min(partial_target, cap)` whenever the resulting profit percentage meets
`take_profit`; otherwise fall back to the capped percentage target. -/
def targetClaimed (cp : ℚ) (rs : List ℚ) (tp mtp rf : ℚ) : ℚ :=
  match lowestResistanceAbove cp rs with
  | some r =>
    let partTarget := cp + (r - cp) * rf
    let final_target := min partTarget (cp * (1 + mtp / 100))
    let final_profit := (final_target - cp) / cp * 100
    if tp ≤ final_profit then final_target else cp * (1 + min tp mtp / 100)
  | none => cp * (1 + min tp mtp / 100)

/-- Claim C2 as amended: identical to `targetClaimed` except that the computed
target is kept only when it is also nonzero — Python's
`if not analysis['target_price']:` treats a target of `0.0` as unset and
falls through to the percentage fallback. -/
def targetAmended (cp : ℚ) (rs : List ℚ) (tp mtp rf : ℚ) : ℚ :=
  match lowestResistanceAbove cp rs with
  | some r =>
    let partTarget := cp + (r - cp) * rf
    let final_target := min partTarget (cp * (1 + mtp / 100))
    let final_profit := (final_target - cp) / cp * 100
    if tp ≤ final_profit ∧ final_target ≠ 0 then final_target
    else cp * (1 + min tp mtp / 100)
  | none => cp * (1 + min tp mtp / 100)

lemma lowestResistanceAbove_gt {cp : ℚ} {rs : List ℚ} {r : ℚ}
    (h : lowestResistanceAbove cp rs = some r) : cp < r := by
  unfold lowestResistanceAbove at h
  rcases rat_min?_eq_some_iff.mp h with ⟨hmem, _⟩
  exact of_decide_eq_true (List.mem_filter.mp hmem).2

/-- The code's target block equals the amended specification whenever the
current price is positive. -/
lemma targetStep_eq (cp : ℚ) (rs : List ℚ) (p : Params) (hcp : 0 < cp) :
    (targetStep cp rs p).1
      = targetAmended cp rs p.take_profit p.max_take_profit p.resistance_factor := by
  unfold targetStep targetAmended
  rw [find?_sortAsc_gt]
  cases h : lowestResistanceAbove cp rs with
  | none => simp [targetFallback]
  | some r =>
    have hr : cp < r := lowestResistanceAbove_gt h
    have hr0 : ¬(r = 0) := by
      intro h0
      exact absurd (h0 ▸ hr) (not_lt_of_le (le_of_lt hcp))
    simp only [hr0, if_false, ite_false]
    by_cases hkeep : p.take_profit ≤
        (min (cp + (r - cp) * p.resistance_factor)
            (cp * (1 + p.max_take_profit / 100)) - cp) / cp * 100
    · rw [if_pos hkeep]
      by_cases hz : min (cp + (r - cp) * p.resistance_factor)
          (cp * (1 + p.max_take_profit / 100)) = 0
      · rw [if_neg (fun hand => hand.2 hz)]
        simp [hz, targetFallback]
      · rw [if_pos (And.intro hkeep hz)]
        simp [hz]
    · rw [if_neg hkeep, if_neg (fun hand => hkeep hand.1)]
      simp [targetFallback]

/-- Bounds on the amended target: for positive current price it always lies
between the capped-percentage fallback and the maximum-profit cap. -/
lemma targetAmended_bounds (cp : ℚ) (rs : List ℚ) (tp mtp rf : ℚ) (hcp : 0 < cp) :
    cp * (1 + min tp mtp / 100) ≤ targetAmended cp rs tp mtp rf
    ∧ targetAmended cp rs tp mtp rf ≤ cp * (1 + mtp / 100) := by
  have hmin : min tp mtp ≤ mtp := min_le_right tp mtp
  have hfb₂ : cp * (1 + min tp mtp / 100) ≤ cp * (1 + mtp / 100) := by
    apply mul_le_mul_of_nonneg_left _ (le_of_lt hcp)
    linarith
  unfold targetAmended
  cases h : lowestResistanceAbove cp rs with
  | none => exact ⟨le_refl _, hfb₂⟩
  | some r =>
    simp only []
    by_cases hc : tp ≤ (min (cp + (r - cp) * rf) (cp * (1 + mtp / 100)) - cp) / cp * 100
        ∧ min (cp + (r - cp) * rf) (cp * (1 + mtp / 100)) ≠ 0
    · rw [if_pos hc]
      constructor
      · have h1 : cp * (1 + tp / 100) ≤ min (cp + (r - cp) * rf) (cp * (1 + mtp / 100)) := by
          have hdiv := hc.1
          rw [div_mul_eq_mul_div, le_div_iff₀ hcp] at hdiv
          have hexp : cp * (1 + tp / 100) = cp + tp * cp / 100 := by ring
          rw [hexp]
          linarith [hdiv]
        have h2 : cp * (1 + min tp mtp / 100) ≤ cp * (1 + tp / 100) := by
          have : min tp mtp ≤ tp := min_le_left tp mtp
          apply mul_le_mul_of_nonneg_left _ (le_of_lt hcp)
          linarith
        exact le_trans h2 h1
      · exact min_le_right _ _
    · rw [if_neg hc]
      exact ⟨le_refl _, hfb₂⟩

/-- C2 (amended): for every call with positive current price, `target_price`
is derived by: (1) take the lowest resistance strictly above the current
price; (2) if one exists, compute the partial target, cap it at
`current_price * (1 + max_take_profit/100)` and take the minimum; (3) keep
that value only if the resulting profit percentage is at least `take_profit`
AND the value is nonzero (Python truthiness); (4) otherwise use
`current_price * (1 + min(take_profit, max_take_profit)/100)`. -/
theorem analyze_opportunity_target_spec (ts : ℕ) (cp pcp ma rsi : ℚ)
    (ss rs : List ℚ) (p : Params) (hcp : 0 < cp) :
    (analyze_opportunity ts cp pcp ma rsi ss rs p).target_price
      = some (targetAmended cp rs p.take_profit p.max_take_profit p.resistance_factor) := by
  show some (targetStep cp rs p).1 = _
  rw [targetStep_eq cp rs p hcp]

/-- Witness for C2's theorem at a concrete input: price 100, one resistance at
108000, thresholds (take_profit 3%, cap 5%). -/
theorem analyze_opportunity_target_spec_witness :
    (0 : ℚ) < 100
    ∧ (analyze_opportunity 0 100 0 100 50 [] [108000]
          (Params.mk 5 3 30 20 5 3 5 (6 / 10))).target_price
        = some (targetAmended 100 [108000] 3 5 (6 / 10)) :=
  ⟨by norm_num,
   analyze_opportunity_target_spec 0 100 0 100 50 [] [108000]
     (Params.mk 5 3 30 20 5 3 5 (6 / 10)) (by norm_num)⟩

/-- C2 counterexample: at `current_price = 100`, `resistances = [200]`,
`take_profit = -150`, `max_take_profit = -100`, the claim's derivation keeps
the capped value `0` (its profit, -100%, meets the -150% threshold), but the
code's `if not analysis['target_price']:` treats the stored `0.0` as falsy and
overwrites it with the percentage fallback `100 * (1 - 150/100) = -50`. -/
theorem targetClaimed_counterexample :
    (analyze_opportunity 0 100 0 100 50 [] [200]
        (Params.mk 5 3 30 20 5 (-150) (-100) (6 / 10))).target_price = some (-50)
    ∧ targetClaimed 100 [200] (-150) (-100) (6 / 10) = 0
    ∧ ((-50 : ℚ) ≠ 0) := by
  refine ⟨?_, ?_, by norm_num⟩
  · norm_num [analyze_opportunity, targetStep, targetFallback, sortAsc,
      List.insertionSort, List.orderedInsert, List.find?]
  · norm_num [targetClaimed, lowestResistanceAbove, List.filter]

/-- C6 (amended): for every call with positive current price, the returned
`target_price` is at least
`current_price * (1 + min(take_profit, max_take_profit)/100)` and at most
`current_price * (1 + max_take_profit/100)`, in exact arithmetic (no epsilon
needed), for all values of the threshold parameters and any resistance
configuration. -/
theorem analyze_opportunity_target_bounds (ts : ℕ) (cp pcp ma rsi : ℚ)
    (ss rs : List ℚ) (p : Params) (hcp : 0 < cp) :
    ∀ t, (analyze_opportunity ts cp pcp ma rsi ss rs p).target_price = some t →
      cp * (1 + min p.take_profit p.max_take_profit / 100) ≤ t
      ∧ t ≤ cp * (1 + p.max_take_profit / 100) := by
  intro t ht
  have heq : (analyze_opportunity ts cp pcp ma rsi ss rs p).target_price
      = some (targetAmended cp rs p.take_profit p.max_take_profit p.resistance_factor) :=
    by show some (targetStep cp rs p).1 = _; rw [targetStep_eq cp rs p hcp]
  rw [heq] at ht
  cases ht
  exact targetAmended_bounds cp rs p.take_profit p.max_take_profit p.resistance_factor hcp

/-- Witness for C6's theorem: price 100, no resistances, take_profit 3%, cap
5%; the target is 103 and the bounds hold there. -/
theorem analyze_opportunity_target_bounds_witness :
    100 * (1 + min 3 5 / 100) ≤ (103 : ℚ) ∧ (103 : ℚ) ≤ 100 * (1 + 5 / 100) :=
  analyze_opportunity_target_bounds 0 100 0 100 50 [] []
    (Params.mk 5 3 30 20 5 3 5 (6 / 10)) (by norm_num) 103
    (by norm_num [analyze_opportunity, targetStep, targetFallback, sortAsc,
        List.insertionSort, List.find?])

/-- C6 counterexample: with `take_profit = 10 > max_take_profit = 5` and no
resistance above the price, the code returns the fallback
`100 * (1 + 5/100) = 105`, which is below the claimed lower bound
`current_price * (1 + take_profit/100) * (1 - ε)` even for a generous
`ε = 1/100` (the bound demands ≥ 108.9). -/
theorem target_lower_bound_counterexample :
    (analyze_opportunity 0 100 0 100 50 [] []
        (Params.mk 5 3 30 20 5 10 5 (6 / 10))).target_price = some 105
    ∧ ¬(100 * (1 + 10 / 100) * (1 - 1 / 100) ≤ (105 : ℚ)) := by
  refine ⟨?_, by norm_num⟩
  norm_num [analyze_opportunity, targetStep, targetFallback, sortAsc,
    List.insertionSort, List.find?]

/-- Claim C3's stop derivation, exactly as the claim states it: the highest
support strictly below the current price is used whenever its distance
condition `(cp - s)/cp * 100 ≤ 2 * stop_loss` holds; otherwise the fixed
percentage fallback. -/
def stopClaimed (cp : ℚ) (ss : List ℚ) (sl : ℚ) : ℚ :=
  match highestSupportBelow cp ss with
  | some s => if (cp - s) / cp * 100 ≤ sl * 2 then s else cp * (1 - sl / 100)
  | none => cp * (1 - sl / 100)

/-- Claim C3 as amended: identical to `stopClaimed` except that the support is
used only when it is also nonzero — Python's `if stop_support:` treats a
support level of `0.0` as falsy and falls through to the fallback. -/
def stopAmended (cp : ℚ) (ss : List ℚ) (sl : ℚ) : ℚ :=
  match highestSupportBelow cp ss with
  | some s =>
    if s ≠ 0 ∧ (cp - s) / cp * 100 ≤ sl * 2 then s else cp * (1 - sl / 100)
  | none => cp * (1 - sl / 100)

lemma highestSupportBelow_lt {cp : ℚ} {ss : List ℚ} {s : ℚ}
    (h : highestSupportBelow cp ss = some s) : s < cp := by
  unfold highestSupportBelow at h
  rcases rat_max?_eq_some_iff.mp h with ⟨hmem, _⟩
  exact of_decide_eq_true (List.mem_filter.mp hmem).2

/-- The code's stop block equals the amended specification, for all inputs. -/
lemma stopStep_eq (cp : ℚ) (ss : List ℚ) (p : Params) :
    (stopStep cp ss p).1 = stopAmended cp ss p.stop_loss := by
  unfold stopStep stopAmended
  rw [find?_sortDesc_lt]
  cases h : highestSupportBelow cp ss with
  | none => simp
  | some s =>
    dsimp only
    by_cases hs0 : s = 0
    · rw [if_pos hs0, if_neg (fun hand => hand.1 hs0)]
    · rw [if_neg hs0]
      by_cases hdist : (cp - s) / cp * 100 ≤ p.stop_loss * 2
      · rw [if_pos hdist, if_pos (And.intro hs0 hdist)]
        simp [hs0]
      · rw [if_neg hdist, if_neg (fun hand => hdist hand.2)]

/-- The amended stop value is strictly below the current price whenever the
price and the stop-loss percentage are positive. -/
lemma stopAmended_lt (cp : ℚ) (ss : List ℚ) (sl : ℚ)
    (hsl : 0 < sl) (hcp : 0 < cp) : stopAmended cp ss sl < cp := by
  unfold stopAmended
  have hfb : cp * (1 - sl / 100) < cp := by nlinarith
  cases h : highestSupportBelow cp ss with
  | none => exact hfb
  | some s =>
    dsimp only
    by_cases hc : s ≠ 0 ∧ (cp - s) / cp * 100 ≤ sl * 2
    · rw [if_pos hc]
      exact highestSupportBelow_lt h
    · rw [if_neg hc]
      exact hfb

/-- C3 (amended): for every call with positive `stop_loss` parameter and
positive current price, the returned stop equals the highest support strictly
below the current price whenever that support is nonzero (Python truthiness of
`if stop_support:`) and `(current_price - support)/current_price * 100 ≤
2 * stop_loss`, and otherwise equals `current_price * (1 - stop_loss/100)`;
in both cases the returned stop is strictly below the current price. -/
theorem analyze_opportunity_stop_spec (ts : ℕ) (cp pcp ma rsi : ℚ)
    (ss rs : List ℚ) (p : Params) (hsl : 0 < p.stop_loss) (hcp : 0 < cp) :
    (analyze_opportunity ts cp pcp ma rsi ss rs p).stop_loss
        = some (stopAmended cp ss p.stop_loss)
    ∧ ∀ v, (analyze_opportunity ts cp pcp ma rsi ss rs p).stop_loss = some v → v < cp := by
  have heq : (analyze_opportunity ts cp pcp ma rsi ss rs p).stop_loss
      = some (stopAmended cp ss p.stop_loss) := by
    show some (stopStep cp ss p).1 = _
    rw [stopStep_eq]
  refine ⟨heq, ?_⟩
  intro v hv
  rw [heq] at hv
  cases hv
  exact stopAmended_lt cp ss p.stop_loss hsl hcp

/-- Witness for C3's theorem at a concrete input: price 100, one support at
96, stop_loss 5%: the support is kept (distance 4% ≤ 10%) and 96 < 100. -/
theorem analyze_opportunity_stop_spec_witness :
    (analyze_opportunity 0 100 0 100 50 [96] []
        (Params.mk 5 3 30 20 5 3 5 (6 / 10))).stop_loss = some (stopAmended 100 [96] 5)
    ∧ (96 : ℚ) < 100 := by
  have h := analyze_opportunity_stop_spec 0 100 0 100 50 [96] []
    (Params.mk 5 3 30 20 5 3 5 (6 / 10)) (by norm_num) (by norm_num)
  refine ⟨h.1, h.2 96 ?_⟩
  norm_num [analyze_opportunity, stopStep, sortDesc, sortAsc,
    List.insertionSort, List.orderedInsert, List.find?]

/-- C3 counterexample: at `current_price = 100`, `stop_loss = 60 > 0`,
`supports = [0]`, the claim's derivation selects the highest support below the
price, `0`, whose distance `100% ≤ 2 * 60%` passes the check; but the code's
`if stop_support:` treats the level `0.0` as falsy, so it falls back to
`100 * (1 - 60/100) = 40` instead. -/
theorem stopClaimed_counterexample :
    (analyze_opportunity 0 100 0 100 50 [0] []
        (Params.mk 5 3 30 20 60 3 5 (6 / 10))).stop_loss = some 40
    ∧ stopClaimed 100 [0] 60 = 0
    ∧ ((40 : ℚ) ≠ 0) ∧ ((0 : ℚ) < 60) ∧ ((0 : ℚ) < 100) := by
  refine ⟨?_, ?_, by norm_num, by norm_num, by norm_num⟩
  · norm_num [analyze_opportunity, stopStep, sortDesc, sortAsc,
      List.insertionSort, List.orderedInsert, List.find?]
  · norm_num [stopClaimed, highestSupportBelow, List.filter]

/-- Successive differences of the close series (`prices.diff()` in
monitor_btc.py line 206), without the leading NaN entry. -/
def deltas (closes : List ℚ) : List ℚ :=
  (closes.zip closes.tail).map (fun pr => pr.2 - pr.1)

/-- The gain series `deltas.where(deltas > 0, 0)` (monitor_btc.py line 207).
pandas `where` also replaces the leading NaN of `diff()` by 0 (NaN > 0 is
false), hence the leading 0 entry. -/
def gains (closes : List ℚ) : List ℚ :=
  0 :: (deltas closes).map (fun d => if 0 < d then d else 0)

/-- The loss series `-(deltas.where(deltas < 0, 0))` (monitor_btc.py line 208),
with the same leading 0. -/
def losses (closes : List ℚ) : List ℚ :=
  0 :: (deltas closes).map (fun d => if d < 0 then -d else 0)

/-- The last `n` entries of a list: the rolling window of width `n` ending at
the most recent index. -/
def lastN (n : ℕ) (l : List ℚ) : List ℚ := l.drop (l.length - n)

/-- `gain.rolling(window=period).mean().iloc[-1]`: the simple (not
exponential) rolling mean of the last `period` gains. -/
def avgGain (closes : List ℚ) (period : ℕ) : ℚ :=
  listMean (lastN period (gains closes))

/-- `loss.rolling(window=period).mean().iloc[-1]`. -/
def avgLoss (closes : List ℚ) (period : ℕ) : ℚ :=
  listMean (lastN period (losses closes))

/-- `calculate_rsi` from monitor_btc.py lines 204-213:
`rs = gain/loss; rsi = 100 - 100/(1+rs)`, returning the most recent value.
`none` models the cases where the float code yields NaN: with fewer than
`period` bars the rolling window at the last index is incomplete, and with
both averages zero the ratio is NaN (0/0).  When the loss average is zero but
the gain average positive, the float code computes `rs = inf` and
`100 - 100/(1 + inf) = 100.0` exactly, modelled by `some 100`. -/
def calculate_rsi (closes : List ℚ) (period : ℕ) : Option ℚ :=
  if closes.length < period then none
  else if 0 < avgLoss closes period then
    some (100 - 100 / (1 + avgGain closes period / avgLoss closes period))
  else if 0 < avgGain closes period then some 100
  else none

lemma gains_nonneg (closes : List ℚ) : ∀ x ∈ gains closes, 0 ≤ x := by
  intro x hx
  rcases List.mem_cons.mp hx with rfl | hx
  · exact le_refl 0
  · rcases List.mem_map.mp hx with ⟨d, _, rfl⟩
    by_cases hd : 0 < d
    · simpa [hd] using le_of_lt hd
    · simp [hd]

lemma avgGain_nonneg (closes : List ℚ) (period : ℕ) : 0 ≤ avgGain closes period := by
  unfold avgGain lastN listMean
  apply div_nonneg
  · apply List.sum_nonneg
    intro x hx
    exact gains_nonneg closes x (List.mem_of_mem_drop hx)
  · exact_mod_cast Nat.zero_le _

/-- C5: `calculate_rsi` computes RSI as `100 - 100/(1 + RS)` where `RS` is the
ratio of the SIMPLE (not exponential) rolling means of gains and losses over
the last `period` bars, and returns the most recent value; this value lies in
[0, 100] whenever both averages are finite and the loss average is strictly
positive; with fewer than `period` bars the result is undefined (NaN,
modelled as `none`).  This is the repository's own implementation in
monitor_btc.py; the `calculate_rsi` in btc_monitor/indicators.py merely
delegates to the external `pandas_ta` library. -/
theorem calculate_rsi_spec (closes : List ℚ) (period : ℕ) :
    (closes.length < period → calculate_rsi closes period = none)
    ∧ (period ≤ closes.length → 0 < avgLoss closes period →
        calculate_rsi closes period
            = some (100 - 100 / (1 + avgGain closes period / avgLoss closes period))
        ∧ ∀ r, calculate_rsi closes period = some r → 0 ≤ r ∧ r ≤ 100) := by
  constructor
  · intro hlt
    simp [calculate_rsi, hlt]
  · intro hge hl
    have hnlt : ¬(closes.length < period) := not_lt_of_le hge
    have heq : calculate_rsi closes period
        = some (100 - 100 / (1 + avgGain closes period / avgLoss closes period)) := by
      simp [calculate_rsi, hnlt, hl]
    refine ⟨heq, ?_⟩
    intro r hr
    rw [heq] at hr
    cases hr
    have hg : 0 ≤ avgGain closes period := avgGain_nonneg closes period
    have hratio : 0 ≤ avgGain closes period / avgLoss closes period :=
      div_nonneg hg (le_of_lt hl)
    constructor
    · have h1 : 100 / (1 + avgGain closes period / avgLoss closes period) ≤ 100 :=
        div_le_self (by norm_num) (by linarith)
      linarith
    · have h2 : 0 < 100 / (1 + avgGain closes period / avgLoss closes period) :=
        div_pos (by norm_num) (by linarith)
      linarith

/-- Witness for C5's theorem: closes [1, 2, 1] with period 2 give average gain
and loss 1/2 each, RS = 1, RSI = 50 ∈ [0, 100]. -/
theorem calculate_rsi_spec_witness :
    calculate_rsi [1, 2, 1] 2 = some 50 ∧ 0 ≤ (50 : ℚ) ∧ (50 : ℚ) ≤ 100 := by
  have h := (calculate_rsi_spec [1, 2, 1] 2).2 (by norm_num)
    (by norm_num [avgLoss, lastN, listMean, losses, deltas])
  have hval : calculate_rsi [1, 2, 1] 2 = some 50 := by
    rw [h.1]
    norm_num [avgGain, avgLoss, lastN, listMean, gains, losses, deltas]
  exact ⟨hval, (h.2 50 hval).1, (h.2 50 hval).2⟩

/-- One OHLC bar of the historical DataFrame, with its calendar date as an
abstract key (bars are daily, one date per bar). -/
structure Bar where
  date : ℕ
  high : ℚ
  low : ℚ
  close : ℚ
deriving DecidableEq

/-- The detection method recorded in the `tipo` column of backtest.py. -/
inductive Method
  | closeToClose
  | peakToValley
  | intraday
deriving DecidableEq

/-- One detected drop row: its calendar date, its `change_close` value (each
method overwrites this column with its own metric before concatenation) and
the method tag. -/
structure Row where
  date : ℕ
  change : ℚ
  tipo : Method
deriving DecidableEq

/-- Method 1 (backtest.py lines 86-88): close-to-close percentage change
`df['close'].pct_change() * 100`, filtered at `<= -min_drop`.  The first bar's
change is NaN and never passes the filter, so rows start at the second bar. -/
def drops_close (df : List Bar) (min_drop : ℚ) : List Row :=
  (df.zip df.tail).filterMap (fun pr =>
    let ch := (pr.2.close - pr.1.close) / pr.1.close * 100
    if ch ≤ -min_drop then some (Row.mk pr.2.date ch Method.closeToClose) else none)

/-- Maximum of a list of rationals (`rolling(...).max()` over a non-empty
window); 0 for the empty list, which never occurs for in-range indices. -/
def maxList : List ℚ → ℚ
  | [] => 0
  | x :: xs => xs.foldl max x

/-- The rolling 30-bar maximum of the highs
(`df['high'].rolling(window=30, min_periods=1).max()`): entry `i` is the
maximum of the highs over indices `max(0, i-29)..i`. -/
def rollingMax30 (highs : List ℚ) : List ℚ :=
  (List.range highs.length).map (fun i => maxList ((highs.take (i + 1)).drop (i + 1 - 30)))

/-- Method 2 (backtest.py lines 92-96): drawdown of each bar's low from the
rolling 30-bar maximum of the highs, filtered at `<= -min_drop`; the drawdown
value overwrites `change_close`. -/
def drops_drawdown (df : List Bar) (min_drop : ℚ) : List Row :=
  (df.zip (rollingMax30 (df.map Bar.high))).filterMap (fun pr =>
    let dd := (pr.1.low - pr.2) / pr.2 * 100
    if dd ≤ -min_drop then some (Row.mk pr.1.date dd Method.peakToValley) else none)

/-- Method 3 (backtest.py lines 99-102): same-bar high-to-low intraday change,
filtered at `<= -min_drop`. -/
def drops_intraday (df : List Bar) (min_drop : ℚ) : List Row :=
  df.filterMap (fun b =>
    let ch := (b.low - b.high) / b.high * 100
    if ch ≤ -min_drop then some (Row.mk b.date ch Method.intraday) else none)

/-- Ordering of rows by their `change_close` value. -/
def rowLe (a b : Row) : Prop := a.change ≤ b.change

instance : DecidableRel rowLe :=
  fun a b => inferInstanceAs (Decidable (a.change ≤ b.change))

instance : IsTotal Row rowLe := ⟨fun a b => le_total a.change b.change⟩

instance : IsTrans Row rowLe := ⟨fun _ _ _ h1 h2 => le_trans h1 h2⟩

/-- `all_drops.sort_values('change_close')`: sort the rows by ascending
change. -/
def sortByChange (rs : List Row) : List Row := List.insertionSort rowLe rs

/-- The ascending list of distinct dates: `groupby('date')` sorts the group
keys ascending and keeps one group per date. -/
def dedupDatesAsc (ds : List ℕ) : List ℕ := (List.insertionSort (· ≤ ·) ds).dedup

/-- `find_drops_advanced` from backtest.py lines 77-117 (identical copy in
btc_monitor/indicators.py lines 68-106): evaluate the three detection methods
over the whole series, concatenate, and — when anything was found — apply
`sort_values('change_close').groupby('date').first()`: sort ascending by
change and keep, for each date in ascending date order, the first row of that
date in change order. -/
def find_drops_advanced (df : List Bar) (min_drop : ℚ) : List Row :=
  let all_drops := drops_close df min_drop ++ drops_drawdown df min_drop
      ++ drops_intraday df min_drop
  if all_drops.isEmpty then all_drops
  else
    let sorted := sortByChange all_drops
    (dedupDatesAsc (sorted.map Row.date)).filterMap
      (fun d => sorted.find? (fun r => r.date == d))

lemma filterMap_find?_map_date (s : List Row) :
    ∀ ds : List ℕ, (∀ d ∈ ds, ∃ r ∈ s, r.date = d) →
      (ds.filterMap (fun d => s.find? (fun r => r.date == d))).map Row.date = ds := by
  intro ds
  induction ds with
  | nil => intro h; simp
  | cons d ds ih =>
    intro hall
    obtain ⟨r, hrs, hrd⟩ := hall d (List.mem_cons_self d ds)
    have hsome : (s.find? (fun r => r.date == d)).isSome :=
      List.find?_isSome.mpr ⟨r, hrs, by simp [hrd]⟩
    obtain ⟨r₀, hr₀⟩ := Option.isSome_iff_exists.mp hsome
    have hr₀d : r₀.date = d := by
      have := List.find?_some hr₀
      simpa using this
    simp only [List.filterMap_cons, hr₀, List.map_cons]
    rw [ih (fun e he => hall e (List.mem_cons_of_mem _ he)), hr₀d]

lemma dedupDatesAsc_congr_perm {l₁ l₂ : List ℕ} (h : List.Perm l₁ l₂) :
    dedupDatesAsc l₁ = dedupDatesAsc l₂ := by
  unfold dedupDatesAsc
  congr 1
  exact List.eq_of_perm_of_sorted
    (((List.perm_insertionSort _ l₁).trans h).trans
      (List.perm_insertionSort _ l₂).symm)
    (List.sorted_insertionSort _ l₁) (List.sorted_insertionSort _ l₂)

lemma mem_dedupDatesAsc {d : ℕ} {ds : List ℕ} :
    d ∈ dedupDatesAsc ds ↔ d ∈ ds := by
  unfold dedupDatesAsc
  rw [List.mem_dedup]
  exact (List.perm_insertionSort _ ds).mem_iff

/-- C8: `find_drops_advanced` evaluates three independent detection methods
over the whole bar series — close-to-close percent change, drawdown of each
bar's low from the rolling 30-bar maximum of highs, and same-bar intraday
change — keeps the rows whose change is `≤ -min_drop`, concatenates the three
result sets, and (the combined set being non-empty) deduplicates by calendar
date: the output lists each detected date exactly once, and each output row is
one of the combined rows whose change value is the most negative among all
combined rows of its date. -/
theorem find_drops_advanced_spec (df : List Bar) (m : ℚ) :
    ((find_drops_advanced df m).map Row.date
        = dedupDatesAsc ((drops_close df m ++ drops_drawdown df m
            ++ drops_intraday df m).map Row.date))
    ∧ ((find_drops_advanced df m).map Row.date).Nodup
    ∧ ∀ r ∈ find_drops_advanced df m,
        (r ∈ drops_close df m ++ drops_drawdown df m ++ drops_intraday df m)
        ∧ ∀ q ∈ drops_close df m ++ drops_drawdown df m ++ drops_intraday df m,
            q.date = r.date → r.change ≤ q.change := by
  by_cases hemp : (drops_close df m ++ drops_drawdown df m ++ drops_intraday df m).isEmpty
  · have hnil : drops_close df m ++ drops_drawdown df m ++ drops_intraday df m = [] :=
      List.isEmpty_iff.mp hemp
    have hout : find_drops_advanced df m = [] := by
      simp only [find_drops_advanced]
      rw [if_pos hemp]
      exact hnil
    rw [hout, hnil]
    refine ⟨by simp [dedupDatesAsc], by simp, ?_⟩
    intro r hr
    exact absurd hr (List.not_mem_nil r)
  · have hperm : List.Perm
        (sortByChange (drops_close df m ++ drops_drawdown df m ++ drops_intraday df m))
        (drops_close df m ++ drops_drawdown df m ++ drops_intraday df m) :=
      List.perm_insertionSort _ _
    have hpair : (sortByChange (drops_close df m ++ drops_drawdown df m
        ++ drops_intraday df m)).Pairwise rowLe :=
      List.sorted_insertionSort _ _
    have hout : find_drops_advanced df m
        = (dedupDatesAsc ((sortByChange (drops_close df m ++ drops_drawdown df m
              ++ drops_intraday df m)).map Row.date)).filterMap
            (fun d => (sortByChange (drops_close df m ++ drops_drawdown df m
              ++ drops_intraday df m)).find? (fun r => r.date == d)) := by
      simp only [find_drops_advanced]
      rw [if_neg hemp]
    have hall : ∀ d ∈ dedupDatesAsc ((sortByChange (drops_close df m ++ drops_drawdown df m
          ++ drops_intraday df m)).map Row.date),
        ∃ r ∈ sortByChange (drops_close df m ++ drops_drawdown df m
          ++ drops_intraday df m), r.date = d := by
      intro d hd
      have hmem : d ∈ (sortByChange (drops_close df m ++ drops_drawdown df m
          ++ drops_intraday df m)).map Row.date := mem_dedupDatesAsc.mp hd
      rcases List.mem_map.mp hmem with ⟨r, hr, hrd⟩
      exact ⟨r, hr, hrd⟩
    have hmapd : (find_drops_advanced df m).map Row.date
        = dedupDatesAsc ((sortByChange (drops_close df m ++ drops_drawdown df m
            ++ drops_intraday df m)).map Row.date) := by
      rw [hout]
      exact filterMap_find?_map_date _ _ hall
    have hdd : dedupDatesAsc ((sortByChange (drops_close df m ++ drops_drawdown df m
          ++ drops_intraday df m)).map Row.date)
        = dedupDatesAsc ((drops_close df m ++ drops_drawdown df m
            ++ drops_intraday df m).map Row.date) :=
      dedupDatesAsc_congr_perm (hperm.map Row.date)
    refine ⟨by rw [hmapd, hdd], ?_, ?_⟩
    · rw [hmapd]
      unfold dedupDatesAsc
      exact List.nodup_dedup _
    · intro r hr
      rw [hout] at hr
      rcases List.mem_filterMap.mp hr with ⟨d, hd, hfind⟩
      have hrs : r ∈ sortByChange (drops_close df m ++ drops_drawdown df m
          ++ drops_intraday df m) := List.mem_of_find?_eq_some hfind
      have hrd : r.date = d := by
        have := List.find?_some hfind
        simpa using this
      refine ⟨hperm.mem_iff.mp hrs, ?_⟩
      intro q hq hqd
      have hqs : q ∈ sortByChange (drops_close df m ++ drops_drawdown df m
          ++ drops_intraday df m) := hperm.mem_iff.mpr hq
      exact find?_pairwise_le Row.change _ hpair _ r hfind q hqs (by simp [hqd, hrd])

/-- Two concrete bars used by the C8 witness: a flat first bar, then a bar
whose close drops 10% close-to-close while its drawdown and intraday drops are
only 6%, so with `min_drop = 8` exactly one method fires. -/
def dfW : List Bar := [Bar.mk 0 100 99 100, Bar.mk 1 100 94 90]

/-- Witness for C8's theorem at a concrete input: the single detected row is a
combined-set row and its change is minimal for its date. -/
theorem find_drops_advanced_spec_witness :
    (Row.mk 1 (-10) Method.closeToClose)
        ∈ drops_close dfW 8 ++ drops_drawdown dfW 8 ++ drops_intraday dfW 8
    ∧ Row.change (Row.mk 1 (-10) Method.closeToClose)
        ≤ Row.change (Row.mk 1 (-10) Method.closeToClose) := by
  have h1 : drops_close dfW 8 = [Row.mk 1 (-10) Method.closeToClose] := by
    norm_num [drops_close, dfW, List.filterMap_cons, List.filterMap_nil]
  have h2 : drops_drawdown dfW 8 = [] := by
    norm_num [drops_drawdown, dfW, rollingMax30, maxList, List.range, List.range.loop,
      List.filterMap_cons, List.filterMap_nil]
  have h3 : drops_intraday dfW 8 = [] := by
    norm_num [drops_intraday, dfW, List.filterMap_cons, List.filterMap_nil]
  have hmem : (Row.mk 1 (-10) Method.closeToClose) ∈ find_drops_advanced dfW 8 := by
    simp only [find_drops_advanced, h1, h2, h3]
    norm_num [sortByChange, dedupDatesAsc, List.insertionSort, List.orderedInsert,
      List.find?, List.dedup_nil, List.dedup_cons_of_not_mem,
      List.filterMap_cons, List.filterMap_nil]
  have h := (find_drops_advanced_spec dfW 8).2.2 (Row.mk 1 (-10) Method.closeToClose) hmem
  exact ⟨h.1, h.2 _ h.1 rfl⟩

/-- `SignalStorage.load_all` (btc_monitor/storage.py lines 56-71), with the
on-disk state of the log file passed explicitly: `none` models a missing (or
unreadable) file, for which the method returns `[]`; `some entries` models a
JSON array of stored entries.  The entry type is abstract. -/
def load_all {α : Type} (file : Option (List α)) : List α :=
  file.getD []

/-- `SignalStorage.save_signal` (btc_monitor/storage.py lines 28-54): load the
existing log in full, append the new signal, and overwrite the file with the
whole array.  The returned value is the new file state. -/
def save_signal {α : Type} (file : Option (List α)) (s : α) : Option (List α) :=
  some (load_all file ++ [s])

/-- C9: the signal log is append-only: saving a signal onto an existing log
file leaves the file holding exactly the previously stored entries, unchanged
and in order, with the new signal appended at the end; the file is rewritten
in full (load entire file, append, overwrite). -/
theorem save_signal_append {α : Type} (prev : List α) (s : α) :
    save_signal (some prev) s = some (prev ++ [s])
    ∧ load_all (save_signal (some prev) s) = load_all (some prev) ++ [s] :=
  ⟨rfl, rfl⟩

end BtcMonitor
